import Mathlib

/-!
Verification development for the `data-frame-ts` library: a shallow embedding
of the tag-coordinate model (`tags.ts`) and the row-major table engine
(`DataFrame.ts`) in Lean 4, together with theorems that settle the given
specification claims.

Conventions of the embedding:
* JavaScript numbers used as indices are modelled by `Int` (they may be
  negative); sizes computed by the library itself are `Nat`.
* The fallible-computation wrapper `Result<V, string>` from `result-fn`
  becomes the inductive `Res`.
* JavaScript `array[i]` (which may yield `undefined`) becomes `Option`.
* A `Tags` collection is an ordered list of tags; the de-dup/uniqueness
  behaviour comes from the operations, exactly as in the source.
-/

namespace DataFrameTS

/-- The fallible-result container of the `result-fn` boundary: success payload
or a descriptive failure message. -/
inductive Res (α : Type) where
  | success : α → Res α
  | failure : String → Res α
deriving Repr, DecidableEq

namespace Res

/-- The `getOrElse` combinator of the result boundary. -/
def getOrElse {α : Type} : Res α → α → α
  | success a, _ => a
  | failure _, d => d

/-- Whether the result is a success. -/
def isSuccess {α : Type} : Res α → Bool
  | success _ => true
  | failure _ => false

end Res

/-- Coordinates of tags: a closed variant over the three coordinate shapes of
`tags.ts` (`RowCoordinate`, `ColumnCoordinate`, `CellCoordinate`).  The
`instanceof`-based narrowing of the source becomes a match on the variant. -/
inductive TagCoordinate where
  | row (i : Int)
  | column (j : Int)
  | cell (i j : Int)
deriving Repr, DecidableEq

/-- String form of a coordinate: `"(row, *)"`, `"(*, column)"`,
`"(row, column)"` — the `toString` methods of the three coordinate classes. -/
def TagCoordinate.str : TagCoordinate → String
  | .row i => "(" ++ toString i ++ ", *)"
  | .column j => "(*, " ++ toString j ++ ")"
  | .cell i j => "(" ++ toString i ++ ", " ++ toString j ++ ")"

/-- String form with blanks removed, as used when a tag id is built
(`coordinate.toString().replace(/ /g, "")`). -/
def TagCoordinate.strNoSpace : TagCoordinate → String
  | .row i => "(" ++ toString i ++ ",*)"
  | .column j => "(*," ++ toString j ++ ")"
  | .cell i j => "(" ++ toString i ++ "," ++ toString j ++ ")"

/-- A `Tag`: `(name, value, coordinate)`.  Tag values only need a string
conversion, so the embedding stores that string form directly. -/
structure Tag where
  name : String
  value : String
  coordinate : TagCoordinate
deriving Repr, DecidableEq

/-- The derived tag id: `` `tag-${name}-${coordinate.toString().replace(/ /g, "")}` ``. -/
def Tag.id (tg : Tag) : String :=
  "tag-" ++ tg.name ++ "-" ++ tg.coordinate.strNoSpace

/-- The key predicate used throughout `Tags`: same `name` and equal
`coordinate` (`tag.name === name && tag.coordinate.equals(coordinate)`). -/
def Tag.sameKey (a : Tag) (name : String) (c : TagCoordinate) : Bool :=
  a.name == name && a.coordinate == c

/-- Source method `Tags.hasTagFor(name, coordinate)`. -/
def hasTagFor (ts : List Tag) (name : String) (c : TagCoordinate) : Bool :=
  ts.any fun tg => tg.sameKey name c

/-- Source method `Tags.hasUniqueTagFor(name, coordinate)`. -/
def hasUniqueTagFor (ts : List Tag) (name : String) (c : TagCoordinate) : Bool :=
  (ts.filter fun tg => tg.sameKey name c).length == 1

/-- One step of the de-duplicating reduce inside `Tags.with`: push the current
tag only when no accumulated tag already has its `(name, coordinate)` key. -/
def withStep (acc : List Tag) (cur : Tag) : List Tag :=
  if acc.any (fun tg => tg.sameKey cur.name cur.coordinate) then acc else acc ++ [cur]

/-- Source method `Tags.with(...tag)`: reverse the argument list, keep the first occurrence
of every `(name, coordinate)` key, and reverse back — so the **last** supplied
tag for a duplicate key survives. -/
def withTags (args : List Tag) : List Tag :=
  (args.reverse.foldl withStep []).reverse

/-- Source method `Tags.add(tag)`: fails when a tag with the same `(name, coordinate)`
already exists, otherwise appends. -/
def addTag (ts : List Tag) (tg : Tag) : Res (List Tag) :=
  if hasTagFor ts tg.name tg.coordinate then
    .failure ("(Tags::add) Cannot add tag because a tag with the same name and coordinate already exists; "
      ++ "name: " ++ tg.name ++ ", coordinate: " ++ tg.coordinate.str)
  else
    .success (ts ++ [tg])

/-- Source method `Tags.replace(tag)`: fails unless exactly one tag matches
`(name, coordinate)`; otherwise swaps the tag in at the index found by
`findIndex`.  The `none` branch of the match is unreachable under the guard. -/
def replaceTag (ts : List Tag) (tg : Tag) : Res (List Tag) :=
  if !hasUniqueTagFor ts tg.name tg.coordinate then
    .failure ("(Tags::replace) Cannot replace tag because no unique tag with name and coordinate was found; "
      ++ "name: " ++ tg.name ++ ", coordinate: " ++ tg.coordinate.str)
  else
    match ts.findIdx? (fun a => a.sameKey tg.name tg.coordinate) with
    | some i => .success (ts.set i tg)
    | none => .success ts

/-- Source method `Tags.addOrReplace(tag)`: replace when the key is present, add when it is
absent; never fails (`getOrElse` keeps the copy on the impossible branch). -/
def addOrReplaceTag (ts : List Tag) (tg : Tag) : List Tag :=
  if hasTagFor ts tg.name tg.coordinate then (replaceTag ts tg).getOrElse ts
  else (addTag ts tg).getOrElse ts

/-- Source method `Tags.remove(id)`: fails when no tag has the id, otherwise splices the tag
at the index found by `findIndex` out of a copy. -/
def removeTag (ts : List Tag) (id : String) : Res (List Tag) :=
  match ts.findIdx? (fun a => a.id == id) with
  | some i => .success (ts.eraseIdx i)
  | none =>
      .failure ("(Tags::remove) Unable to remove tag with specified tag ID because no tag with this ID was found; tag_id: " ++ id)

/-- Source method `Tags.tagsFor(rowIndex, columnIndex)`: the axis-matching filter.  In the
source a `RowCoordinate` projects to `[row, NaN]` and the branch fires on
`instanceof RowCoordinate && isNaN(c2)`, which for the closed variant model is
exactly a match on the variant; likewise for the other two shapes. -/
def tagsForIdx (ts : List Tag) (rowIndex columnIndex : Int) : List Tag :=
  ts.filter fun tg =>
    match tg.coordinate with
    | .row i => i == rowIndex
    | .column j => j == columnIndex
    | .cell i j => i == rowIndex && j == columnIndex

/-- Modelled from the spec: the repository ships only the callers and tests of
`Tags.transpose`, not its body.  Spec rule: `Row(i) → Column(i)`,
`Column(j) → Row(j)`, `Cell(i,j) → Cell(j,i)`. -/
def transposeCoord : TagCoordinate → TagCoordinate
  | .row i => .column i
  | .column j => .row j
  | .cell i j => .cell j i

/-- Modelled from the spec: `Tags.transpose` applied to the whole collection
(the missing method, applied tag by tag). -/
def transposeTags (ts : List Tag) : List Tag :=
  ts.map fun tg => { tg with coordinate := transposeCoord tg.coordinate }

/-- Modelled from the spec: the repository ships only the callers and tests of
`Tags.insertRow(at)`, not its body.  Spec rule: `Row(i) → Row(i+1)` if `i≥at`,
`Cell(i,j) → Cell(i+1,j)` if `i≥at`, column coordinates unchanged. -/
def insertRowTags (at_ : Int) (ts : List Tag) : List Tag :=
  ts.map fun tg =>
    match tg.coordinate with
    | .row i => if i ≥ at_ then { tg with coordinate := .row (i + 1) } else tg
    | .column _ => tg
    | .cell i j => if i ≥ at_ then { tg with coordinate := .cell (i + 1) j } else tg

/-- Modelled from the spec: the repository ships only the callers and tests of
`Tags.removeRow(at)`, not its body.  Spec rule: `Row(at)` dropped,
`Row(i) → Row(i-1)` if `i>at`; `Cell(at,j)` dropped, `Cell(i,j) → Cell(i-1,j)`
if `i>at`; column coordinates unchanged. -/
def removeRowTags (at_ : Int) (ts : List Tag) : List Tag :=
  ts.filterMap fun tg =>
    match tg.coordinate with
    | .row i =>
        if i == at_ then none
        else if i > at_ then some { tg with coordinate := .row (i - 1) } else some tg
    | .column _ => some tg
    | .cell i j =>
        if i == at_ then none
        else if i > at_ then some { tg with coordinate := .cell (i - 1) j } else some tg

/-! ## JavaScript array helpers -/

/-- JS `array[i]` for a possibly negative index: `undefined` (here `none`)
outside `[0, length)`. -/
def jsGet {V : Type} (l : List V) (i : Int) : Option V :=
  if i < 0 then none else l.get? i.toNat

/-- JS `Array.prototype.slice(start, end)` with the ECMAScript clamping rules
for negative and too-large bounds. -/
def jsSlice {V : Type} (l : List V) (s e : Int) : List V :=
  let n : Int := l.length
  let s' := (if s < 0 then max (n + s) 0 else min s n).toNat
  let e' := (if e < 0 then max (n + e) 0 else min e n).toNat
  (l.drop s').take (e' - s')

/-! ## The DataFrame engine (`DataFrame.ts`) -/

/-- The row-major table: flat storage, rows, columns, and the owned tag
collection.  The private constructor of the class corresponds to the anonymous
constructor here. -/
structure DataFrame (V : Type) where
  data : List V
  numRows : Nat
  numColumns : Nat
  tags : List Tag
deriving Repr, DecidableEq

variable {V : Type}

/-- Message of a failed dimension validation, parameterized by row/column form
and the observed minimum and maximum inner-array lengths. -/
def dimErrMsg (rowForm : Bool) (mn mx : Nat) : String :=
  if rowForm then
    "(DataFrame.validateDimensions) All rows must have the same number of columns; min_num_columns: "
      ++ toString mn ++ ", maximum_columns: " ++ toString mx
  else
    "(DataFrame.validateDimensions) All columns must have the same number of rows; min_num_rows: "
      ++ toString mn ++ ", maximum_rows: " ++ toString mx

/-- The `reduce` inside `validateDimensions`: running minimum and maximum of
the inner-array lengths.  The JS code starts from the sentinels
`{min: Infinity, max: -Infinity}`; `none` plays both sentinels here (every
length is below `Infinity` and above `-Infinity`, so the first row always
replaces them, exactly as `none` is always replaced). -/
def minMaxStep (b : Option Nat × Option Nat) (row : List V) : Option Nat × Option Nat :=
  (some (match b.1 with | none => row.length | some m => Nat.min m row.length),
   some (match b.2 with | none => row.length | some m => Nat.max m row.length))

/-- Accumulated run of `minMaxStep` over the whole input, starting from the
sentinel pair. -/
def minMaxLens (data : List (List V)) : Option Nat × Option Nat :=
  data.foldl minMaxStep (none, none)

/-- Source function `validateDimensions(data, rowForm)`: succeeds iff all inner arrays share
one positive length; otherwise fails with the min/max message.  (With empty
`data` the JS sentinels survive and `Infinity === -Infinity` is false, so it
fails; `DataFrame.from` never reaches this case.) -/
def validateDimensions (data : List (List V)) (rowForm : Bool) : Res (List (List V)) :=
  match minMaxLens data with
  | (some mn, some mx) =>
      if mn == mx && mn > 0 then .success data else .failure (dimErrMsg rowForm mn mx)
  | _ => .failure (dimErrMsg rowForm 0 0)

/-- Data part of `transpose()`: the loop writes
`transposed[col*numRows + row] = data[row*numColumns + col]` for every
`row < numRows`, `col < numColumns`, which covers every target index exactly
once; position `k` of the result therefore reads
`data[(k % numRows)*numColumns + (k / numRows)]`.  (The initial `data.slice()`
copy never shows through because `data.length = numRows*numColumns` for every
frame built by the class.) -/
def transposeData [Inhabited V] (data : List V) (numRows numColumns : Nat) : List V :=
  (List.range (numColumns * numRows)).map fun k =>
    ((data.get? ((k % numRows) * numColumns + k / numRows)).getD default)

namespace DataFrame

variable [Inhabited V]

/-- Source method `transpose()`: swaps rows and columns and remaps every tag. -/
def transpose (df : DataFrame V) : DataFrame V :=
  { data := transposeData df.data df.numRows df.numColumns
    numRows := df.numColumns
    numColumns := df.numRows
    tags := transposeTags df.tags }

/-- Source factory `DataFrame.from(data, rowForm)`: empty input gives the empty frame;
otherwise the dimensions are validated, the inner arrays are flattened
row-major with a fresh empty tag collection, and column-form input is
normalized by a final transpose. -/
def from_ (data : List (List V)) (rowForm : Bool) : Res (DataFrame V) :=
  if data.length == 0 then
    .success { data := [], numRows := 0, numColumns := 0, tags := [] }
  else
    match validateDimensions data rowForm with
    | .failure msg => .failure msg
    | .success d =>
        let df : DataFrame V :=
          { data := d.flatten, numRows := d.length, numColumns := (d.headD []).length, tags := [] }
        .success (if rowForm then df else df.transpose)

/-- Source factory `DataFrame.fromColumnData(data)` = `DataFrame.from(data, false)`. -/
def fromColumnData (data : List (List V)) : Res (DataFrame V) :=
  from_ data false

/-- Source method `elementAt(rowIndex, columnIndex)`.  The source's bound check reads
`columnIndex <= this.numColumns` (not `<`); the success payload is the JS
array read, which can be `undefined` (`none`). -/
def elementAt (df : DataFrame V) (rowIndex columnIndex : Int) : Res (Option V) :=
  if 0 ≤ rowIndex ∧ rowIndex < (df.numRows : Int) ∧ 0 ≤ columnIndex ∧ columnIndex ≤ (df.numColumns : Int) then
    .success (jsGet df.data (rowIndex * df.numColumns + columnIndex))
  else
    .failure ("(DataFrame::elementAt) Index out of bounds; row: " ++ toString rowIndex
      ++ ", column: " ++ toString columnIndex ++ "; range: (" ++ toString df.numRows
      ++ ", " ++ toString df.numColumns ++ ")")

/-- Source method `rowSlice(rowIndex)`: defensive copy of one row. -/
def rowSlice (df : DataFrame V) (rowIndex : Int) : Res (List V) :=
  if 0 ≤ rowIndex ∧ rowIndex < (df.numRows : Int) then
    .success (jsSlice df.data (rowIndex * df.numColumns) ((rowIndex + 1) * df.numColumns))
  else
    .failure ("(DataFrame::rowSlice) Row Index out of bounds; row_index: " ++ toString rowIndex
      ++ "; range: (0, " ++ toString df.numRows ++ ")")

/-- Source method `rowSlices()`: every row in order (each inner `rowSlice(i).getOrThrow()`
is in range, so it never throws). -/
def rowSlices (df : DataFrame V) : List (List V) :=
  (List.range df.numRows).map fun i =>
    jsSlice df.data ((i : Int) * df.numColumns) (((i : Int) + 1) * df.numColumns)

/-- Source method `pushRow(row)`: length check, then append to the flat storage with the
tag collection copied unchanged. -/
def pushRow (df : DataFrame V) (row : List V) : Res (DataFrame V) :=
  if row.length != df.numColumns then
    .failure ("(DataFrame::pushRow) The row must have the same number of elements as the data has columns. "
      ++ "num_rows: " ++ toString df.numRows ++ "; num_columns: " ++ toString row.length)
  else
    .success { data := df.data ++ row, numRows := df.numRows + 1, numColumns := df.numColumns, tags := df.tags }

/-- Source method `pushColumn(column)`: length check, then each row slice gets the matching
column element pushed, and the rows are handed to `DataFrame.from` — which
builds the new frame with `Tags.empty()`. -/
def pushColumn (df : DataFrame V) (column : List V) : Res (DataFrame V) :=
  if column.length != df.numRows then
    .failure ("(DataFrame::pushColumn) The column must have the same number of rows as the data. "
      ++ "num_rows: " ++ toString df.numRows ++ "; num_columns: " ++ toString column.length)
  else
    from_ (List.zipWith (fun row v => row ++ [v]) df.rowSlices column) true

/-- Source method `insertRowBefore(rowIndex, row)`.  The source's first guard is
`rowIndex < 0 && rowIndex >= this.numRows` — a conjunction that no index
satisfies — followed by the row-length check and the slice/concat build. -/
def insertRowBefore (df : DataFrame V) (rowIndex : Int) (row : List V) : Res (DataFrame V) :=
  if rowIndex < 0 ∧ rowIndex ≥ (df.numRows : Int) then
    .failure ("(DataFrame::insertRowBefore) Index out of bounds; row: " ++ toString rowIndex
      ++ "; range: (0, " ++ toString df.numRows ++ ")")
  else if row.length != df.numColumns then
    .failure ("(DataFrame::insertRowBefore) The row must have the same number of elements as the data has columns. "
      ++ "num_rows: " ++ toString df.numRows ++ "; num_columns: " ++ toString row.length)
  else
    .success
      { data := jsSlice df.data 0 (rowIndex * df.numColumns) ++ row
          ++ jsSlice df.data (rowIndex * df.numColumns) df.data.length
        numRows := df.numRows + 1
        numColumns := df.numColumns
        tags := insertRowTags rowIndex df.tags }

/-- Source method `deleteRowAt(rowIndex)`.  (The source's leading empty-frame check builds a
failure result without returning it, so it has no effect and is omitted; an
empty frame still fails the bound check below.)  The row is spliced out of a
copy and the tags are remapped with `removeRow`. -/
def deleteRowAt (df : DataFrame V) (rowIndex : Int) : Res (DataFrame V) :=
  if rowIndex < 0 ∨ rowIndex ≥ (df.numRows : Int) then
    .failure ("(DataFrame::deleteRowAt) Index out of bounds; row: " ++ toString rowIndex
      ++ "; range: (0, " ++ toString df.numRows ++ ")")
  else
    .success
      { data := (df.data.take (rowIndex.toNat * df.numColumns))
          ++ (df.data.drop (rowIndex.toNat * df.numColumns + df.numColumns))
        numRows := df.numRows - 1
        numColumns := df.numColumns
        tags := removeRowTags rowIndex df.tags }

/-- Source method `equals(other)`: same flat length and `===`-identical elements at every
index (for the value types of the embedding `===` is decidable equality);
shape and tags never enter. -/
def equals (df other : DataFrame V) [DecidableEq V] : Bool :=
  df.data.length == other.data.length &&
    (List.range df.data.length).all fun i => df.data.get? i == other.data.get? i

/-- Source method `rowTagsFor(rowIndex)`: tags that are row tags bound to the given row. -/
def rowTagsFor (df : DataFrame V) (rowIndex : Int) : List Tag :=
  df.tags.filter fun tg =>
    match tg.coordinate with
    | .row i => i == rowIndex
    | _ => false

/-- Source method `columnTagsFor(columnIndex)`: tags that are column tags bound to the
given column. -/
def columnTagsFor (df : DataFrame V) (columnIndex : Int) : List Tag :=
  df.tags.filter fun tg =>
    match tg.coordinate with
    | .column j => j == columnIndex
    | _ => false

/-- Source method `cellTagsFor(rowIndex, columnIndex)`: tags that are cell tags bound to the
given cell. -/
def cellTagsFor (df : DataFrame V) (rowIndex columnIndex : Int) : List Tag :=
  df.tags.filter fun tg =>
    match tg.coordinate with
    | .cell i j => i == rowIndex && j == columnIndex
    | _ => false

/-- Source method `tagsFor(rowIndex, columnIndex)`: empty for out-of-range positions,
otherwise the axis-matching query on the owned collection. -/
def tagsFor (df : DataFrame V) (rowIndex columnIndex : Int) : List Tag :=
  if rowIndex < 0 ∨ rowIndex ≥ (df.numRows : Int) ∨ columnIndex < 0 ∨ columnIndex ≥ (df.numColumns : Int) then
    []
  else
    tagsForIdx df.tags rowIndex columnIndex

end DataFrame

/-- The shape invariant of the class: flat storage length is `rows*columns`. -/
def Valid (df : DataFrame V) : Prop :=
  df.data.length = df.numRows * df.numColumns

/-- Minimum observed inner-array length, in the spec's words ("fail reporting
the minimum and the maximum observed lengths"); `0` for empty input, which
never reaches the validator. -/
def minObservedLen (data : List (List V)) : Nat :=
  match data with
  | [] => 0
  | r :: rs => rs.foldl (fun m row => Nat.min m row.length) r.length

/-- Maximum observed inner-array length, in the spec's words. -/
def maxObservedLen (data : List (List V)) : Nat :=
  match data with
  | [] => 0
  | r :: rs => rs.foldl (fun m row => Nat.max m row.length) r.length

/-- Tag collections reachable through the public constructors and operations
of `Tags`: `empty`, `with`, and the success results of `add`, `replace`,
`addOrReplace`, `remove`. -/
inductive ReachableTags : List Tag → Prop where
  | emptyTags : ReachableTags []
  | withCtor (args : List Tag) : ReachableTags (withTags args)
  | addStep (ts : List Tag) (tg : Tag) (out : List Tag) :
      ReachableTags ts → addTag ts tg = .success out → ReachableTags out
  | replaceStep (ts : List Tag) (tg : Tag) (out : List Tag) :
      ReachableTags ts → replaceTag ts tg = .success out → ReachableTags out
  | addOrReplaceStep (ts : List Tag) (tg : Tag) :
      ReachableTags ts → ReachableTags (addOrReplaceTag ts tg)
  | removeStep (ts : List Tag) (id : String) (out : List Tag) :
      ReachableTags ts → removeTag ts id = .success out → ReachableTags out

/-- Tag-uniqueness invariant: no two tags of the collection share the
`(name, coordinate)` pair. -/
def UniqueKeys (ts : List Tag) : Prop :=
  ts.Pairwise fun a b => ¬(a.name = b.name ∧ a.coordinate = b.coordinate)

instance : DecidablePred UniqueKeys := fun ts =>
  inferInstanceAs (Decidable (ts.Pairwise _))

instance validDecidable {V : Type} (df : DataFrame V) : Decidable (Valid df) :=
  inferInstanceAs (Decidable (df.data.length = df.numRows * df.numColumns))

/-! ## Concrete frames used to evaluate the claims -/

/-- Example: a 1 by 1 frame holding `5` carrying one row tag. -/
def taggedUnitFrame : DataFrame Int :=
  { data := [5], numRows := 1, numColumns := 1, tags := [Tag.mk "a" "v" (.row 0)] }

/-- Example: a 1 by 1 frame holding `5` with no tags. -/
def plainUnitFrame : DataFrame Int :=
  { data := [5], numRows := 1, numColumns := 1, tags := [] }

/-- Example tags: one per coordinate shape on a 2 by 3 frame. -/
def sampleTags : List Tag :=
  [Tag.mk "r" "rv" (.row 1), Tag.mk "c" "cv" (.column 2), Tag.mk "x" "xv" (.cell 1 2)]

/-- Example: a 2 by 3 frame with a row, a column, and a cell tag. -/
def sampleFrame : DataFrame Int :=
  { data := [1, 2, 3, 4, 5, 6], numRows := 2, numColumns := 3, tags := sampleTags }

/-! ## General helper lemmas -/

theorem list_range_map_getD {V : Type} (l : List V) (d : V) :
    (List.range l.length).map (fun k => (l.get? k).getD d) = l := by
  apply List.ext_getElem
  · simp
  · intro i h1 h2
    simp [List.getElem_map, List.getElem_range, List.get?_eq_getElem?,
      List.getElem?_eq_getElem h2]

theorem equals_true_iff {V : Type} [DecidableEq V] (df1 df2 : DataFrame V) :
    DataFrame.equals df1 df2 = true ↔ df1.data = df2.data := by
  unfold DataFrame.equals
  rw [Bool.and_eq_true, List.all_eq_true]
  constructor
  · rintro ⟨hlen, hall⟩
    have hlen' : df1.data.length = df2.data.length := by simpa using hlen
    apply List.ext_get?
    intro n
    by_cases hn : n < df1.data.length
    · have := hall n (List.mem_range.mpr hn)
      simpa using this
    · rw [List.get?_eq_none.mpr (le_of_not_lt hn), List.get?_eq_none.mpr (by omega)]
  · intro h
    rw [h]
    exact ⟨by simp, by intro i _; simp⟩

theorem transposeData_one_row {V : Type} [Inhabited V] (l : List V) (c : Nat)
    (h : l.length = 1 * c) :
    transposeData l 1 c = l := by
  unfold transposeData
  have hc : c * 1 = l.length := by omega
  rw [hc]
  simpa [Nat.mod_one, Nat.div_one] using list_range_map_getD l default

theorem transposeCoord_involution (c : TagCoordinate) :
    transposeCoord (transposeCoord c) = c := by
  cases c <;> rfl

theorem transposeTags_involution (ts : List Tag) :
    transposeTags (transposeTags ts) = ts := by
  unfold transposeTags
  rw [List.map_map]
  induction ts with
  | nil => rfl
  | cons tg rest ih =>
      cases tg
      simp only [List.map_cons, Function.comp, transposeCoord_involution]
      rw [ih]

theorem transposeData_involution {V : Type} [Inhabited V] (data : List V) (r c : Nat)
    (h : data.length = r * c) :
    transposeData (transposeData data r c) c r = data := by
  apply List.ext_getElem
  · simp [transposeData, h]
  · intro k h1 h2
    have hk : k < r * c := by simpa [transposeData] using h1
    have hrc : 0 < r * c := lt_of_le_of_lt (Nat.zero_le k) hk
    have hr : 0 < r := Nat.pos_of_ne_zero (fun h0 => by subst h0; simp at hrc)
    have hc : 0 < c := Nat.pos_of_ne_zero (fun h0 => by subst h0; simp at hrc)
    have hkc : k / c < r := (Nat.div_lt_iff_lt_mul hc).mpr hk
    have hmod : k % c < c := Nat.mod_lt _ hc
    have hm : (k % c) * r + k / c < c * r := by
      calc (k % c) * r + k / c < (k % c) * r + r := by omega
        _ = (k % c + 1) * r := by ring
        _ ≤ c * r := Nat.mul_le_mul_right _ hmod
    simp only [transposeData, List.getElem_map, List.getElem_range]
    rw [List.get?_eq_getElem?, List.getElem?_eq_getElem (by simpa using hm)]
    simp only [List.getElem_map, List.getElem_range, Option.getD_some]
    have e1 : ((k % c) * r + k / c) % r = k / c := by
      rw [Nat.mul_comm (k % c) r, Nat.mul_add_mod]
      exact Nat.mod_eq_of_lt hkc
    have e2 : ((k % c) * r + k / c) / r = k % c := by
      rw [Nat.mul_comm (k % c) r, Nat.mul_add_div hr]
      simp [Nat.div_eq_of_lt hkc]
    rw [e1, e2]
    have e3 : (k / c) * c + k % c = k := by
      rw [Nat.mul_comm]
      exact Nat.div_add_mod k c
    rw [e3, List.get?_eq_getElem?, List.getElem?_eq_getElem (by omega)]
    rfl

/-! ## Helper lemmas for the uniqueness invariant -/

theorem uniqueKeys_append_singleton (ts : List Tag) (tg : Tag) (h : UniqueKeys ts)
    (hnew : ∀ a ∈ ts, ¬(a.name = tg.name ∧ a.coordinate = tg.coordinate)) :
    UniqueKeys (ts ++ [tg]) := by
  unfold UniqueKeys at *
  rw [List.pairwise_append]
  refine ⟨h, List.pairwise_singleton _ _, ?_⟩
  intro a ha b hb
  rw [List.mem_singleton] at hb
  subst hb
  exact hnew a ha

theorem uniqueKeys_foldl_withStep :
    ∀ (l acc : List Tag), UniqueKeys acc → UniqueKeys (l.foldl withStep acc) := by
  intro l
  induction l with
  | nil => intro acc h; exact h
  | cons cur rest ih =>
      intro acc h
      show UniqueKeys (rest.foldl withStep (withStep acc cur))
      apply ih
      unfold withStep
      split
      · exact h
      · rename_i hguard
        apply uniqueKeys_append_singleton _ _ h
        intro a ha hk
        have : (acc.any fun tg => tg.sameKey cur.name cur.coordinate) = true :=
          List.any_eq_true.mpr ⟨a, ha, by simp [Tag.sameKey, hk.1, hk.2]⟩
        simp [this] at hguard

theorem uniqueKeys_withTags (args : List Tag) : UniqueKeys (withTags args) := by
  unfold withTags UniqueKeys
  rw [List.pairwise_reverse]
  exact (uniqueKeys_foldl_withStep args.reverse [] List.Pairwise.nil).imp
    fun hab hba => hab ⟨hba.1.symm, hba.2.symm⟩

theorem uniqueKeys_addTag (ts : List Tag) (tg : Tag) (out : List Tag)
    (heq : addTag ts tg = .success out) (h : UniqueKeys ts) : UniqueKeys out := by
  unfold addTag at heq
  split at heq
  · exact absurd heq (by simp)
  · rename_i hguard
    injection heq with heq
    subst heq
    apply uniqueKeys_append_singleton _ _ h
    intro a ha hk
    exact hguard (List.any_eq_true.mpr ⟨a, ha, by simp [Tag.sameKey, hk.1, hk.2]⟩)

theorem uniqueKeys_set (ts : List Tag) (i : Nat) (tg : Tag) (h : UniqueKeys ts)
    (hi : i < ts.length)
    (hkey : (ts.get ⟨i, hi⟩).name = tg.name ∧ (ts.get ⟨i, hi⟩).coordinate = tg.coordinate) :
    UniqueKeys (ts.set i tg) := by
  have hkn : ts[i].name = tg.name := hkey.1
  have hkc : ts[i].coordinate = tg.coordinate := hkey.2
  unfold UniqueKeys at *
  rw [List.pairwise_iff_getElem] at *
  intro a b ha hb hab
  rw [List.length_set] at ha hb
  rw [List.getElem_set, List.getElem_set]
  by_cases hia : i = a
  · subst hia
    rw [if_pos rfl, if_neg (by omega)]
    intro hk
    exact h i b ha hb hab ⟨hkn.trans hk.1, hkc.trans hk.2⟩
  · rw [if_neg hia]
    by_cases hib : i = b
    · subst hib
      rw [if_pos rfl]
      intro hk
      exact h a i ha hb hab ⟨hk.1.trans hkn.symm, hk.2.trans hkc.symm⟩
    · rw [if_neg hib]
      exact h a b ha hb hab

theorem uniqueKeys_replaceTag (ts : List Tag) (tg : Tag) (out : List Tag)
    (heq : replaceTag ts tg = .success out) (h : UniqueKeys ts) : UniqueKeys out := by
  unfold replaceTag at heq
  split at heq
  · exact absurd heq (by simp)
  · split at heq
    · rename_i i hidx
      injection heq with heq
      subst heq
      obtain ⟨hi, hp, -⟩ := List.findIdx?_eq_some_iff_getElem.mp hidx
      have hkey : ts[i].name = tg.name ∧ ts[i].coordinate = tg.coordinate := by
        simpa [Tag.sameKey] using hp
      exact uniqueKeys_set ts i tg h hi hkey
    · injection heq with heq
      subst heq
      exact h

theorem uniqueKeys_addOrReplaceTag (ts : List Tag) (tg : Tag) (h : UniqueKeys ts) :
    UniqueKeys (addOrReplaceTag ts tg) := by
  unfold addOrReplaceTag
  split
  · cases hrep : replaceTag ts tg with
    | success o => exact uniqueKeys_replaceTag ts tg o hrep h
    | failure m => exact h
  · cases hadd : addTag ts tg with
    | success o => exact uniqueKeys_addTag ts tg o hadd h
    | failure m => exact h

theorem uniqueKeys_removeTag (ts : List Tag) (id : String) (out : List Tag)
    (heq : removeTag ts id = .success out) (h : UniqueKeys ts) : UniqueKeys out := by
  unfold removeTag at heq
  split at heq
  · injection heq with heq
    subst heq
    exact h.sublist (List.eraseIdx_sublist ts _)
  · exact absurd heq (by simp)

/-! ## Helper lemmas for the last-wins de-duplication -/

theorem foldl_withStep_filter_pos (n : String) (c : TagCoordinate) :
    ∀ (l acc : List Tag), (acc.any fun tg => tg.sameKey n c) = true →
      ((l.foldl withStep acc).filter fun tg => tg.sameKey n c) =
        acc.filter fun tg => tg.sameKey n c := by
  intro l
  induction l with
  | nil => intro acc _; rfl
  | cons cur rest ih =>
      intro acc h
      show ((rest.foldl withStep (withStep acc cur)).filter _) = _
      by_cases hkm : cur.sameKey n c = true
      · have hnc : cur.name = n ∧ cur.coordinate = c := by
          simpa [Tag.sameKey] using hkm
        have hg : (acc.any fun tg => tg.sameKey cur.name cur.coordinate) = true := by
          rw [hnc.1, hnc.2]; exact h
        rw [withStep, if_pos hg]
        exact ih acc h
      · have hstep_any : ((withStep acc cur).any fun tg => tg.sameKey n c) = true := by
          unfold withStep
          split
          · exact h
          · rw [List.any_append]; simp [h]
        have hstep_filter :
            ((withStep acc cur).filter fun tg => tg.sameKey n c) =
              acc.filter fun tg => tg.sameKey n c := by
          unfold withStep
          split
          · rfl
          · rw [List.filter_append]; simp [hkm]
        rw [ih _ hstep_any, hstep_filter]

theorem foldl_withStep_filter_neg (n : String) (c : TagCoordinate) :
    ∀ (l acc : List Tag), (acc.any fun tg => tg.sameKey n c) = false →
      ((l.foldl withStep acc).filter fun tg => tg.sameKey n c) =
        (l.find? fun tg => tg.sameKey n c).toList := by
  intro l
  induction l with
  | nil =>
      intro acc h
      simp only [List.foldl_nil, List.find?_nil, Option.toList_none]
      rw [List.filter_eq_nil_iff]
      intro a ha
      exact List.any_eq_false.mp h a ha
  | cons cur rest ih =>
      intro acc h
      show ((rest.foldl withStep (withStep acc cur)).filter _) = _
      by_cases hkm : cur.sameKey n c = true
      · have hnc : cur.name = n ∧ cur.coordinate = c := by
          simpa [Tag.sameKey] using hkm
        have hg : (acc.any fun tg => tg.sameKey cur.name cur.coordinate) = false := by
          rw [hnc.1, hnc.2]; exact h
        rw [withStep, if_neg (by simp [hg])]
        have hany : ((acc ++ [cur]).any fun tg => tg.sameKey n c) = true := by
          rw [List.any_append]; simp [hkm]
        rw [foldl_withStep_filter_pos n c rest _ hany, List.filter_append]
        have hfa : (acc.filter fun tg => tg.sameKey n c) = [] := by
          rw [List.filter_eq_nil_iff]
          intro a ha
          exact List.any_eq_false.mp h a ha
        rw [hfa]
        simp [List.find?_cons, hkm]
      · have hstep_any : ((withStep acc cur).any fun tg => tg.sameKey n c) = false := by
          unfold withStep
          split
          · exact h
          · rw [List.any_append]; simp [h, hkm]
        rw [ih _ hstep_any]
        simp [List.find?_cons, hkm]

/-! ## Helper lemmas for the dimension validation -/

theorem minMaxLens_go {V : Type} :
    ∀ (rs : List (List V)) (a b : Nat),
      rs.foldl minMaxStep (some a, some b) =
        (some (rs.foldl (fun m row => Nat.min m row.length) a),
         some (rs.foldl (fun m row => Nat.max m row.length) b)) := by
  intro rs
  induction rs with
  | nil => intro a b; rfl
  | cons r rest ih =>
      intro a b
      simpa [minMaxStep] using ih (Nat.min a r.length) (Nat.max b r.length)

theorem minMaxLens_cons {V : Type} (r : List V) (rs : List (List V)) :
    minMaxLens (r :: rs) = (some (minObservedLen (r :: rs)), some (maxObservedLen (r :: rs))) := by
  unfold minMaxLens minObservedLen maxObservedLen
  rw [List.foldl_cons]
  show rs.foldl minMaxStep (minMaxStep (none, none) r) = _
  simpa [minMaxStep] using minMaxLens_go rs r.length r.length

theorem foldl_min_le_init {V : Type} :
    ∀ (rs : List (List V)) (a : Nat), rs.foldl (fun m row => Nat.min m row.length) a ≤ a := by
  intro rs
  induction rs with
  | nil => intro a; exact Nat.le_refl a
  | cons r rest ih =>
      intro a
      exact le_trans (ih (Nat.min a r.length)) (Nat.min_le_left _ _)

theorem foldl_max_init_le {V : Type} :
    ∀ (rs : List (List V)) (a : Nat), a ≤ rs.foldl (fun m row => Nat.max m row.length) a := by
  intro rs
  induction rs with
  | nil => intro a; exact Nat.le_refl a
  | cons r rest ih =>
      intro a
      exact le_trans (Nat.le_max_left _ _) (ih (Nat.max a r.length))

theorem foldl_min_le_mem {V : Type} :
    ∀ (rs : List (List V)) (a : Nat) (row : List V), row ∈ rs →
      rs.foldl (fun m row => Nat.min m row.length) a ≤ row.length := by
  intro rs
  induction rs with
  | nil => intro a row h; exact absurd h (List.not_mem_nil row)
  | cons r rest ih =>
      intro a row h
      rcases List.mem_cons.mp h with h | h
      · subst h
        exact le_trans (foldl_min_le_init rest _) (Nat.min_le_right _ _)
      · exact ih _ row h

theorem foldl_max_mem_le {V : Type} :
    ∀ (rs : List (List V)) (a : Nat) (row : List V), row ∈ rs →
      row.length ≤ rs.foldl (fun m row => Nat.max m row.length) a := by
  intro rs
  induction rs with
  | nil => intro a row h; exact absurd h (List.not_mem_nil row)
  | cons r rest ih =>
      intro a row h
      rcases List.mem_cons.mp h with h | h
      · subst h
        exact le_trans (Nat.le_max_right _ _) (foldl_max_init_le rest _)
      · exact ih _ row h

theorem foldl_min_const {V : Type} :
    ∀ (rs : List (List V)) (a : Nat), (∀ row ∈ rs, row.length = a) →
      rs.foldl (fun m row => Nat.min m row.length) a = a := by
  intro rs
  induction rs with
  | nil => intro a _; rfl
  | cons r rest ih =>
      intro a h
      have hr : r.length = a := h r (List.mem_cons_self r rest)
      show rest.foldl _ (Nat.min a r.length) = a
      rw [hr, show Nat.min a a = a from Nat.min_self a]
      exact ih a fun row hrow => h row (List.mem_cons_of_mem r hrow)

theorem foldl_max_const {V : Type} :
    ∀ (rs : List (List V)) (a : Nat), (∀ row ∈ rs, row.length = a) →
      rs.foldl (fun m row => Nat.max m row.length) a = a := by
  intro rs
  induction rs with
  | nil => intro a _; rfl
  | cons r rest ih =>
      intro a h
      have hr : r.length = a := h r (List.mem_cons_self r rest)
      show rest.foldl _ (Nat.max a r.length) = a
      rw [hr, show Nat.max a a = a from Nat.max_self a]
      exact ih a fun row hrow => h row (List.mem_cons_of_mem r hrow)

theorem minObservedLen_le_mem {V : Type} (data : List (List V)) (row : List V)
    (h : row ∈ data) : minObservedLen data ≤ row.length := by
  cases data with
  | nil => exact absurd h (List.not_mem_nil row)
  | cons r rs =>
      unfold minObservedLen
      rcases List.mem_cons.mp h with h | h
      · subst h; exact foldl_min_le_init rs _
      · exact foldl_min_le_mem rs _ row h

theorem mem_le_maxObservedLen {V : Type} (data : List (List V)) (row : List V)
    (h : row ∈ data) : row.length ≤ maxObservedLen data := by
  cases data with
  | nil => exact absurd h (List.not_mem_nil row)
  | cons r rs =>
      unfold maxObservedLen
      rcases List.mem_cons.mp h with h | h
      · subst h; exact foldl_max_init_le rs _
      · exact foldl_max_mem_le rs _ row h

theorem allSameLength_iff {V : Type} (r : List V) (rs : List (List V)) :
    (minObservedLen (r :: rs) = maxObservedLen (r :: rs) ∧ 0 < minObservedLen (r :: rs)) ↔
      (∃ n, 0 < n ∧ ∀ row ∈ (r :: rs), row.length = n) := by
  constructor
  · rintro ⟨hmm, hpos⟩
    refine ⟨minObservedLen (r :: rs), hpos, ?_⟩
    intro row hrow
    have l1 := minObservedLen_le_mem (r :: rs) row hrow
    have l2 := mem_le_maxObservedLen (r :: rs) row hrow
    omega
  · rintro ⟨n, hpos, hall⟩
    have hmin : minObservedLen (r :: rs) = n := by
      show rs.foldl (fun m row => Nat.min m row.length) r.length = n
      rw [hall r (List.mem_cons_self r rs)]
      exact foldl_min_const rs n fun row hrow => hall row (List.mem_cons_of_mem r hrow)
    have hmax : maxObservedLen (r :: rs) = n := by
      show rs.foldl (fun m row => Nat.max m row.length) r.length = n
      rw [hall r (List.mem_cons_self r rs)]
      exact foldl_max_const rs n fun row hrow => hall row (List.mem_cons_of_mem r hrow)
    omega

theorem validateDimensions_spec {V : Type} (r : List V) (rs : List (List V)) (rowForm : Bool) :
    (minObservedLen (r :: rs) = maxObservedLen (r :: rs) ∧ 0 < minObservedLen (r :: rs) →
       validateDimensions (r :: rs) rowForm = .success (r :: rs)) ∧
    (¬(minObservedLen (r :: rs) = maxObservedLen (r :: rs) ∧ 0 < minObservedLen (r :: rs)) →
       validateDimensions (r :: rs) rowForm =
         .failure (dimErrMsg rowForm (minObservedLen (r :: rs)) (maxObservedLen (r :: rs)))) := by
  unfold validateDimensions
  rw [minMaxLens_cons]
  constructor
  · rintro ⟨h1, h2⟩
    simp only
    rw [if_pos (by simp only [Bool.and_eq_true, beq_iff_eq, decide_eq_true_eq]; exact ⟨h1, h2⟩)]
  · intro h
    simp only
    rw [if_neg ?hcond]
    case hcond =>
      simp only [Bool.and_eq_true, beq_iff_eq, decide_eq_true_eq]
      exact fun hc => h ⟨hc.1, hc.2⟩

/-! ## The claims -/

/-- Claim C1 (evaluation at the failing input): the claim says `pushRow` and
`pushColumn` both keep the tag collection exactly as it was.  On a tagged
1 by 1 frame, `pushRow` does keep the tag, but `pushColumn` hands the grown
rows to `DataFrame.from`, which rebuilds the frame with an empty tag
collection — every tag of the receiver is dropped. -/
theorem pushColumn_drops_all_tags :
    DataFrame.pushColumn taggedUnitFrame [7] =
      .success { data := [5, 7], numRows := 1, numColumns := 2, tags := [] }
    ∧ DataFrame.pushRow taggedUnitFrame [7] =
      .success { data := [5, 7], numRows := 2, numColumns := 1, tags := taggedUnitFrame.tags }
    ∧ taggedUnitFrame.tags ≠ [] := by
  refine ⟨rfl, rfl, by decide⟩

/-- Claim C2: for every valid frame, transposing twice restores the frame —
the flat data, both dimensions, and every tag's coordinate. -/
theorem transpose_involution {V : Type} [Inhabited V] (df : DataFrame V) (h : Valid df) :
    df.transpose.transpose = df := by
  obtain ⟨data, r, c, tags⟩ := df
  show DataFrame.mk (transposeData (transposeData data r c) c r) r c
      (transposeTags (transposeTags tags)) = DataFrame.mk data r c tags
  rw [transposeData_involution data r c h, transposeTags_involution]

/-- Claim C2 witness: transpose involution at a concrete tagged 2 by 3 frame. -/
theorem transpose_involution_w :
    Valid sampleFrame ∧ sampleFrame.transpose.transpose = sampleFrame :=
  ⟨by decide, transpose_involution sampleFrame (by decide)⟩

/-- Claim C3: for an in-range row index, `deleteRowAt` succeeds and the
resulting tags are exactly the old ones with every row or cell tag at the
deleted row dropped, every row or cell tag below it shifted up by one, and
all other tags (rows above, every column tag) unchanged. -/
theorem deleteRowAt_tag_rules {V : Type} (df : DataFrame V) (r : Int)
    (h0 : 0 ≤ r) (h1 : r < (df.numRows : Int)) :
    ∃ u : DataFrame V, df.deleteRowAt r = .success u ∧
      u.tags = df.tags.filterMap (fun tg =>
        match tg.coordinate with
        | .row i =>
            if i = r then none
            else if r < i then some (Tag.mk tg.name tg.value (.row (i - 1))) else some tg
        | .column _ => some tg
        | .cell i j =>
            if i = r then none
            else if r < i then some (Tag.mk tg.name tg.value (.cell (i - 1) j)) else some tg) := by
  have hcond : ¬(r < 0 ∨ r ≥ (df.numRows : Int)) := by push_neg; exact ⟨h0, h1⟩
  refine ⟨_, by unfold DataFrame.deleteRowAt; rw [if_neg hcond], ?_⟩
  show removeRowTags r df.tags = _
  unfold removeRowTags
  apply List.filterMap_congr
  intro tg _
  obtain ⟨n, v, coord⟩ := tg
  cases coord <;> simp [gt_iff_lt]

/-- Claim C3 witness: deleting row 1 of the concrete tagged 2 by 3 frame. -/
theorem deleteRowAt_tag_rules_w :
    ∃ u : DataFrame Int, sampleFrame.deleteRowAt 1 = .success u ∧
      u.tags = sampleFrame.tags.filterMap (fun tg =>
        match tg.coordinate with
        | .row i =>
            if i = 1 then none
            else if 1 < i then some (Tag.mk tg.name tg.value (.row (i - 1))) else some tg
        | .column _ => some tg
        | .cell i j =>
            if i = 1 then none
            else if 1 < i then some (Tag.mk tg.name tg.value (.cell (i - 1) j)) else some tg) :=
  deleteRowAt_tag_rules sampleFrame 1 (by decide) (by decide)

/-- Claim C4: for every cell `(r, c)` of the frame, `tagsFor` returns exactly
the union of `rowTagsFor r`, `columnTagsFor c`, and `cellTagsFor r c`, and
membership in each piece is exactly the axis-matching rule: row tags match on
the row index, column tags on the column index, cell tags on both. -/
theorem tagsFor_axis_union {V : Type} (df : DataFrame V) (r c : Int)
    (h0 : 0 ≤ r) (h1 : r < (df.numRows : Int)) (h2 : 0 ≤ c) (h3 : c < (df.numColumns : Int)) :
    (∀ tg, tg ∈ df.tagsFor r c ↔
       (tg ∈ df.rowTagsFor r ∨ tg ∈ df.columnTagsFor c ∨ tg ∈ df.cellTagsFor r c)) ∧
    (∀ tg ∈ df.tags,
       (tg ∈ df.rowTagsFor r ↔ tg.coordinate = .row r) ∧
       (tg ∈ df.columnTagsFor c ↔ tg.coordinate = .column c) ∧
       (tg ∈ df.cellTagsFor r c ↔ tg.coordinate = .cell r c)) := by
  have hcond : ¬(r < 0 ∨ r ≥ (df.numRows : Int) ∨ c < 0 ∨ c ≥ (df.numColumns : Int)) := by
    push_neg
    exact ⟨h0, h1, h2, h3⟩
  constructor
  · intro tg
    unfold DataFrame.tagsFor
    rw [if_neg hcond]
    simp only [tagsForIdx, DataFrame.rowTagsFor, DataFrame.columnTagsFor,
      DataFrame.cellTagsFor, List.mem_filter]
    obtain ⟨n, v, coord⟩ := tg
    cases coord <;> simp
  · intro tg htg
    simp only [DataFrame.rowTagsFor, DataFrame.columnTagsFor, DataFrame.cellTagsFor,
      List.mem_filter]
    obtain ⟨n, v, coord⟩ := tg
    cases coord <;> simp_all

/-- Claim C4 witness: the axis-matching union at cell `(1, 2)` of the concrete
tagged 2 by 3 frame. -/
theorem tagsFor_axis_union_w :
    (∀ tg, tg ∈ sampleFrame.tagsFor 1 2 ↔
       (tg ∈ sampleFrame.rowTagsFor 1 ∨ tg ∈ sampleFrame.columnTagsFor 2 ∨
        tg ∈ sampleFrame.cellTagsFor 1 2)) ∧
    (∀ tg ∈ sampleFrame.tags,
       (tg ∈ sampleFrame.rowTagsFor 1 ↔ tg.coordinate = .row 1) ∧
       (tg ∈ sampleFrame.columnTagsFor 2 ↔ tg.coordinate = .column 2) ∧
       (tg ∈ sampleFrame.cellTagsFor 1 2 ↔ tg.coordinate = .cell 1 2)) :=
  tagsFor_axis_union sampleFrame 1 2 (by decide) (by decide) (by decide) (by decide)

/-- Claim C5: every tag collection reachable through the public constructors
and operations (`empty`, `with`, `add`, `replace`, `addOrReplace`, `remove`)
has no two tags sharing the same `(name, coordinate)` pair. -/
theorem tags_unique_invariant (ts : List Tag) (h : ReachableTags ts) : UniqueKeys ts := by
  induction h with
  | emptyTags => exact List.Pairwise.nil
  | withCtor args => exact uniqueKeys_withTags args
  | addStep ts tg out _ heq ih => exact uniqueKeys_addTag ts tg out heq ih
  | replaceStep ts tg out _ heq ih => exact uniqueKeys_replaceTag ts tg out heq ih
  | addOrReplaceStep ts tg _ ih => exact uniqueKeys_addOrReplaceTag ts tg ih
  | removeStep ts id out _ heq ih => exact uniqueKeys_removeTag ts id out heq ih

/-- Claim C5 witness: uniqueness of the collection built by `with` from two
tags with the same `(name, coordinate)` key. -/
theorem tags_unique_invariant_w :
    UniqueKeys (withTags [Tag.mk "a" "v" (.row 0), Tag.mk "a" "w" (.row 0)]) :=
  tags_unique_invariant _ (ReachableTags.withCtor _)

/-- Claim C6: for every key `(n, c)`, the collection built by `Tags.with`
holds exactly the tags that `find?` locates when scanning the arguments from
the back — a single tag (the last-supplied one) for every key that occurs,
nothing for a key that does not. -/
theorem withTags_last_wins (args : List Tag) (n : String) (c : TagCoordinate) :
    ((withTags args).filter fun tg => tg.sameKey n c) =
      (args.reverse.find? fun tg => tg.sameKey n c).toList := by
  unfold withTags
  rw [List.filter_reverse, foldl_withStep_filter_neg n c args.reverse [] rfl]
  cases args.reverse.find? fun tg => tg.sameKey n c <;> simp

/-- Claim C7 (evaluation at the failing input): the claim says `elementAt`
fails whenever the column index is outside `[0, columns)`; the source's bound
check uses `columnIndex <= this.numColumns`, so on a 1 by 1 frame
`elementAt(0, 1)` succeeds (with the JS `undefined` read) although column 1
is out of range. -/
theorem elementAt_at_columnCount_succeeds :
    plainUnitFrame.elementAt 0 1 = .success none
    ∧ ¬((1 : Int) < (plainUnitFrame.numColumns : Int)) := by
  refine ⟨rfl, by decide⟩

/-- Claim C8 (evaluation at the failing input): the claim says
`insertRowBefore` fails when `at` lies outside `[0, rowCount()]`; the
source's guard reads `rowIndex < 0 && rowIndex >= this.numRows`, which no
index satisfies, so on a 1-row frame `insertRowBefore(2, [9])` succeeds
although 2 is beyond `rowCount()`. -/
theorem insertRowBefore_ignores_range :
    plainUnitFrame.insertRowBefore 2 [9] =
      .success { data := [5, 9], numRows := 2, numColumns := 1, tags := [] }
    ∧ ¬((2 : Int) ≤ (plainUnitFrame.numRows : Int)) := by
  refine ⟨rfl, by decide⟩

/-- Claim C9 counterexample: `DataFrame.from([[]])` has all inner arrays of
one equal length, yet the validation rejects it (the shared length is zero),
so "succeed exactly when all inner arrays have the same length" fails. -/
theorem from_rejects_equal_zero_lengths :
    DataFrame.from_ ([[]] : List (List Int)) true =
      .failure "(DataFrame.validateDimensions) All rows must have the same number of columns; min_num_columns: 0, maximum_columns: 0"
    ∧ ∀ r ∈ ([[]] : List (List Int)), r.length = 0 := by
  refine ⟨rfl, by decide⟩

/-- Claim C9 as amended: `from` (row and column form alike) succeeds exactly
when the input is empty or all inner arrays share one positive length, and on
a genuine length mismatch it fails with the message reporting the minimum and
maximum observed inner-array lengths. -/
theorem from_validation {V : Type} [Inhabited V] (data : List (List V)) (rowForm : Bool) :
    ((∃ df, DataFrame.from_ data rowForm = .success df) ↔
       (data = [] ∨ ∃ n, 0 < n ∧ ∀ row ∈ data, row.length = n)) ∧
    (∀ r1 ∈ data, ∀ r2 ∈ data, r1.length ≠ r2.length →
       DataFrame.from_ data rowForm =
         .failure (dimErrMsg rowForm (minObservedLen data) (maxObservedLen data))) := by
  cases data with
  | nil =>
      refine ⟨?_, ?_⟩
      · constructor
        · intro _; exact Or.inl rfl
        · intro _; exact ⟨_, rfl⟩
      · intro r1 h1
        exact absurd h1 (List.not_mem_nil r1)
  | cons r rs =>
      refine ⟨?_, ?_⟩
      · constructor
        · rintro ⟨df, hdf⟩
          right
          unfold DataFrame.from_ at hdf
          rw [if_neg (by simp)] at hdf
          by_cases hcond : minObservedLen (r :: rs) = maxObservedLen (r :: rs) ∧
              0 < minObservedLen (r :: rs)
          · exact (allSameLength_iff r rs).mp hcond
          · rw [(validateDimensions_spec r rs rowForm).2 hcond] at hdf
            exact absurd hdf (by simp)
        · intro h
          rcases h with h | h
          · exact absurd h (by simp)
          · have hcond := (allSameLength_iff r rs).mpr h
            cases hv : DataFrame.from_ (r :: rs) rowForm with
            | success df => exact ⟨df, rfl⟩
            | failure m =>
                exfalso
                unfold DataFrame.from_ at hv
                rw [if_neg (by simp), (validateDimensions_spec r rs rowForm).1 hcond] at hv
                simp at hv
      · intro r1 h1 r2 h2 hne2
        have hcond : ¬(minObservedLen (r :: rs) = maxObservedLen (r :: rs) ∧
            0 < minObservedLen (r :: rs)) := by
          rintro ⟨hmm, -⟩
          apply hne2
          have a1 := minObservedLen_le_mem (r :: rs) r1 h1
          have a2 := mem_le_maxObservedLen (r :: rs) r1 h1
          have b1 := minObservedLen_le_mem (r :: rs) r2 h2
          have b2 := mem_le_maxObservedLen (r :: rs) r2 h2
          omega
        unfold DataFrame.from_
        rw [if_neg (by simp), (validateDimensions_spec r rs rowForm).2 hcond]

/-- Claim C9 witness: the spec's own scenario — four columns of lengths 3, 3,
3, 4 in column form fail reporting minimum 3 and maximum 4. -/
theorem from_validation_w :
    DataFrame.fromColumnData ([[1, 2, 3], [4, 5, 6], [7, 8, 9], [10, 11, 12, 13]] : List (List Int)) =
      .failure "(DataFrame.validateDimensions) All columns must have the same number of rows; min_num_rows: 3, maximum_rows: 4" := by
  have h := (from_validation ([[1, 2, 3], [4, 5, 6], [7, 8, 9], [10, 11, 12, 13]] : List (List Int)) false).2
      [1, 2, 3] (by decide) [10, 11, 12, 13] (by decide) (by decide)
  exact h.trans (by rfl)

/-- Claim C10: `equals` compares exactly the flat storage — it is true iff
the two flat data lists agree in length and elementwise — and therefore two
frames of different shapes with the same flat data compare equal; in
particular a valid 1 by n frame equals its n by 1 transpose. -/
theorem equals_data_only {V : Type} [Inhabited V] [DecidableEq V] (df1 df2 : DataFrame V) :
    (DataFrame.equals df1 df2 = true ↔ df1.data = df2.data) ∧
    (∀ df : DataFrame V, Valid df → df.numRows = 1 →
      DataFrame.equals df df.transpose = true) := by
  refine ⟨equals_true_iff df1 df2, ?_⟩
  intro df hv h1
  rw [equals_true_iff]
  show df.data = transposeData df.data df.numRows df.numColumns
  rw [h1]
  exact (transposeData_one_row df.data df.numColumns (by rw [← h1]; exact hv)).symm

/-- Claim C10 witness: a 1 by 2 frame and a 2 by 1 frame with the same flat
data compare equal, as does the 1 by 2 frame with its own transpose. -/
theorem equals_data_only_w :
    DataFrame.equals (⟨[1, 2], 1, 2, []⟩ : DataFrame Int) ⟨[1, 2], 2, 1, []⟩ = true ∧
    DataFrame.equals (⟨[1, 2], 1, 2, []⟩ : DataFrame Int)
      (DataFrame.transpose ⟨[1, 2], 1, 2, []⟩) = true :=
  ⟨(equals_data_only (⟨[1, 2], 1, 2, []⟩ : DataFrame Int) ⟨[1, 2], 2, 1, []⟩).1.mpr rfl,
   (equals_data_only (⟨[1, 2], 1, 2, []⟩ : DataFrame Int) ⟨[1, 2], 2, 1, []⟩).2 _ (by decide) rfl⟩

end DataFrameTS
